import Mathlib

/-!
Verification of the ari-client dynamic client core.

The development embeds the body-assembly routine `parseBodyParams` from
`lib/utils.js` (both as a pure function and as a function over an explicit
object heap, so that statements about mutation of caller-supplied option
maps are meaningful), and models — from the specification, because the
corresponding library files are not part of the source tree examined here —
the event router, the listener tables, the WebSocket session state machine,
the connect error taxonomy and the local instance creators.
-/

namespace AriClient

/-! ## JavaScript value model -/

/-- A JavaScript/JSON value as manipulated by the client: `undefined` stands for
the JavaScript `undefined` (the result of reading an absent property),
objects are ordered key/value lists (JavaScript objects preserve insertion
order and have unique keys), numbers are modelled as integers (the values
appearing in option maps are integral). -/
inductive JVal where
  | undefined : JVal
  | null : JVal
  | bool : Bool → JVal
  | num : Int → JVal
  | str : String → JVal
  | obj : List (String × JVal) → JVal
  | arr : List JVal → JVal

/-- JavaScript truthiness: `undefined`, `null`, `false`, `0` and the empty
string are falsy; every object and array is truthy. -/
def truthy : JVal → Bool
  | .undefined => false
  | .null => false
  | .bool b => b
  | .num n => n != 0
  | .str s => s != ""
  | .obj _ => true
  | .arr _ => true

/-- Reading property `k` of an object option map (first binding wins);
absent keys read as `undefined`. -/
def objGet (o : List (String × JVal)) (k : String) : JVal :=
  match o.find? (fun p => p.1 == k) with
  | some p => p.2
  | none => .undefined

/-- JavaScript property assignment `o[k] = v`: an existing binding is
updated in place, a new key is appended at the end. -/
def objSet (o : List (String × JVal)) (k : String) (v : JVal) :
    List (String × JVal) :=
  if o.any (fun p => p.1 == k) then
    o.map (fun p => if p.1 == k then (k, v) else p)
  else
    o ++ [(k, v)]

/-- JavaScript `delete o[k]`. -/
def objDelete (o : List (String × JVal)) (k : String) :
    List (String × JVal) :=
  o.filter (fun p => p.1 != k)

/-- Whether the key `k` is present in the option map. -/
def objHasKey (o : List (String × JVal)) (k : String) : Bool :=
  o.any (fun p => p.1 == k)

/-- JavaScript member access `v.k` on an arbitrary value: objects yield the
bound value or `undefined`; member access on any non-object value used by
the client (strings, numbers, booleans, arrays) yields `undefined` for the
property names the client reads. -/
def member : JVal → String → JVal
  | .obj fields, k => objGet fields k
  | _, _ => .undefined

/-! ## JSON serialization (`JSON.stringify`) -/

/-- Escape one character for a JSON string literal. -/
def escapeChar (c : Char) : String :=
  if c = '"' then "\\\""
  else if c = '\\' then "\\\\"
  else String.singleton c

/-- Escape a string for inclusion in a JSON document. -/
def escapeString (s : String) : String :=
  String.join (s.data.map escapeChar)

/-- A JSON string literal. -/
def jsonQuote (s : String) : String :=
  "\"" ++ escapeString s ++ "\""

/-- Comma-separated concatenation. -/
def commaJoin : List String → String
  | [] => ""
  | [s] => s
  | s :: rest => s ++ "," ++ commaJoin rest

mutual

/-- `JSON.stringify` on a value. Object members bound to `undefined` are
skipped, exactly as in JavaScript; a bare `undefined` value only ever
reaches this function below an object member, where it has been skipped, or
inside an array, where JavaScript renders `null`. -/
def stringify : JVal → String
  | .undefined => "null"
  | .null => "null"
  | .bool b => if b then "true" else "false"
  | .num n => toString n
  | .str s => jsonQuote s
  | .obj fields => "\x7b" ++ commaJoin (stringifyFields fields) ++ "\x7d"
  | .arr elems => "[" ++ commaJoin (stringifyElems elems) ++ "]"

/-- Serialize the members of an object, skipping `undefined` values. -/
def stringifyFields : List (String × JVal) → List String
  | [] => []
  | (k, v) :: rest =>
    match v with
    | .undefined => stringifyFields rest
    | v => (jsonQuote k ++ ":" ++ stringify v) :: stringifyFields rest

/-- Serialize the elements of an array. -/
def stringifyElems : List JVal → List String
  | [] => []
  | v :: rest => stringify v :: stringifyElems rest

end

/-! ## Body assembly: `parseBodyParams` (lib/utils.js)

```js
function parseBodyParams(params, swaggerOptions) {
  const options = _.clone(swaggerOptions);
  const bodyParams = params.filter((param) => param.paramType === 'body');
  bodyParams.forEach((bodyParam) => {
    let jsonBody = options[bodyParam.name];
    if (jsonBody) {
      if (bodyParam.name === 'variables' && !options.variables.variables) {
        jsonBody = \x7b variables: jsonBody \x7d;
      } else if (bodyParam.name === 'fields' && !options.fields.fields) {
        jsonBody = \x7b fields: jsonBody \x7d;
      }
      options.body = JSON.stringify(jsonBody);
      delete options[bodyParam.name];
    }
  });
  return options;
}
```
-/

/-- A swagger operation parameter descriptor: only the name and the
placement (`paramType`) matter to body assembly. -/
structure Param where
  name : String
  paramType : String
deriving DecidableEq, Repr

/-- The body of the `forEach` loop of `parseBodyParams`, acting on the
current (cloned) option map. -/
def processBodyParam (options : List (String × JVal)) (bodyParam : Param) :
    List (String × JVal) :=
  let jsonBody := objGet options bodyParam.name
  if truthy jsonBody then
    let jsonBody :=
      if bodyParam.name == "variables" &&
          !truthy (member (objGet options "variables") "variables") then
        JVal.obj [("variables", jsonBody)]
      else if bodyParam.name == "fields" &&
          !truthy (member (objGet options "fields") "fields") then
        JVal.obj [("fields", jsonBody)]
      else jsonBody
    objDelete (objSet options "body" (JVal.str (stringify jsonBody)))
      bodyParam.name
  else options

/-- `parseBodyParams` from `lib/utils.js`, as a pure function: the
shallow `_.clone` at entry means the function works on a copy of the
top-level map, which a value-passing embedding gives for free (the
heap-level embedding below accounts for the sharing of nested objects). -/
def parseBodyParams (params : List Param) (swaggerOptions : List (String × JVal)) :
    List (String × JVal) :=
  (params.filter (fun p => p.paramType == "body")).foldl
    processBodyParam swaggerOptions

example :
    objGet
      (parseBodyParams [⟨"variables", "body"⟩]
        [("endpoint", JVal.str "PJSIP/softphone"),
         ("variables", JVal.obj [("CALLERID(name)", JVal.str "Alice")])])
      "body" =
      JVal.str "\x7b\"variables\":\x7b\"CALLERID(name)\":\"Alice\"\x7d\x7d" := by
  rfl

example :
    objGet
      (parseBodyParams [⟨"a", "body"⟩, ⟨"b", "body"⟩]
        [("a", JVal.num 1), ("b", JVal.num 2)])
      "body" = JVal.str "2" := by
  rfl

/-! ## Heap-level embedding

JavaScript objects are reference values and `_.clone` is shallow: the clone
is a fresh top-level object whose field values (including references to
nested objects) are shared with the original. To state that the client
never mutates a caller-supplied option map — nested values included — the
object graph is made explicit: a heap maps references to field lists, and
every assignment or deletion performed by `parseBodyParams` acts on an
explicit reference. -/

abbrev Ref := Nat

/-- A heap-level value: scalars are inline, objects are references. -/
inductive HVal where
  | hundefined : HVal
  | hnull : HVal
  | hbool : Bool → HVal
  | hnum : Int → HVal
  | hstr : String → HVal
  | href : Ref → HVal
deriving DecidableEq, Repr

/-- The object heap: allocated objects with their field lists, plus the
next fresh reference. -/
structure Heap where
  objs : List (Ref × List (String × HVal))
  next : Ref
deriving Repr

/-- Reading a field of a heap-level field list. -/
def fieldsGet (o : List (String × HVal)) (k : String) : HVal :=
  match o.find? (fun p => p.1 == k) with
  | some p => p.2
  | none => .hundefined

/-- Assignment on a heap-level field list. -/
def fieldsSet (o : List (String × HVal)) (k : String) (v : HVal) :
    List (String × HVal) :=
  if o.any (fun p => p.1 == k) then
    o.map (fun p => if p.1 == k then (k, v) else p)
  else
    o ++ [(k, v)]

/-- Deletion on a heap-level field list. -/
def fieldsDelete (o : List (String × HVal)) (k : String) :
    List (String × HVal) :=
  o.filter (fun p => p.1 != k)

/-- The field list of the object at reference `r`, when allocated. -/
def Heap.lookup (h : Heap) (r : Ref) : Option (List (String × HVal)) :=
  match h.objs.find? (fun p => p.1 == r) with
  | some p => some p.2
  | none => none

/-- Allocate a new object with the given fields, returning its reference. -/
def Heap.alloc (h : Heap) (fs : List (String × HVal)) : Ref × Heap :=
  (h.next, { objs := h.objs ++ [(h.next, fs)], next := h.next + 1 })

/-- Apply `g` to the field list of the object at reference `r`. -/
def Heap.update (h : Heap) (r : Ref) (g : List (String × HVal) → List (String × HVal)) :
    Heap :=
  { h with objs := h.objs.map (fun p => if p.1 == r then (p.1, g p.2) else p) }

/-- `obj.k = v` through a reference. -/
def Heap.setField (h : Heap) (r : Ref) (k : String) (v : HVal) : Heap :=
  h.update r (fun fs => fieldsSet fs k v)

/-- `delete obj.k` through a reference. -/
def Heap.deleteField (h : Heap) (r : Ref) (k : String) : Heap :=
  h.update r (fun fs => fieldsDelete fs k)

/-- Reading `obj.k` through a reference (absent object or key reads as
`undefined`). -/
def Heap.getField (h : Heap) (r : Ref) (k : String) : HVal :=
  match h.lookup r with
  | some fs => fieldsGet fs k
  | none => .hundefined

/-- JavaScript truthiness of a heap-level value (objects are truthy). -/
def truthyH : HVal → Bool
  | .hundefined => false
  | .hnull => false
  | .hbool b => b
  | .hnum n => n != 0
  | .hstr s => s != ""
  | .href _ => true

/-- Member access `v.k` on an arbitrary heap-level value. -/
def memberH (h : Heap) : HVal → String → HVal
  | .href r, k => h.getField r k
  | _, _ => .hundefined

/-- Read a heap-level value out into a `JVal`, following references; the
fuel bounds the depth (`JSON.stringify` throws on circular structures,
which never arise from the option maps the client builds). -/
def hReadout : Nat → Heap → HVal → JVal
  | 0, _, _ => .null
  | _ + 1, _, .hundefined => .undefined
  | _ + 1, _, .hnull => .null
  | _ + 1, _, .hbool b => .bool b
  | _ + 1, _, .hnum n => .num n
  | _ + 1, _, .hstr s => .str s
  | fuel + 1, h, .href r =>
    match h.lookup r with
    | some fs => .obj (fs.map (fun p => (p.1, hReadout fuel h p.2)))
    | none => .undefined

/-- `JSON.stringify` of a heap-level value. -/
def stringifyH (fuel : Nat) (h : Heap) (v : HVal) : String :=
  stringify (hReadout fuel h v)

/-- One iteration of the `forEach` loop of `parseBodyParams`, acting
through the reference `options` to the cloned option map: the wrap
allocates a fresh one-field object sharing the nested value, and the
assignment of `options.body` and the deletion of the parameter key are
writes to the clone. -/
def bodyLoopStep (options : Ref) (h : Heap) (bodyParam : Param) : Heap :=
  let jsonBody := h.getField options bodyParam.name
  if truthyH jsonBody then
    let wrapped :=
      if bodyParam.name == "variables" &&
          !truthyH (memberH h (h.getField options "variables") "variables") then
        let a := h.alloc [("variables", jsonBody)]
        (HVal.href a.1, a.2)
      else if bodyParam.name == "fields" &&
          !truthyH (memberH h (h.getField options "fields") "fields") then
        let a := h.alloc [("fields", jsonBody)]
        (HVal.href a.1, a.2)
      else (jsonBody, h)
    let h2 := wrapped.2
    let body := stringifyH (h2.objs.length + 1) h2 wrapped.1
    (h2.setField options "body" (.hstr body)).deleteField options bodyParam.name
  else h

/-- `parseBodyParams` at the heap level: `const options =
_.clone(swaggerOptions)` allocates a fresh top-level object whose field
list is copied from the caller map (nested references shared), and the
loop then works through that fresh reference only. -/
def parseBodyParamsHeap (params : List Param) (optsRef : Ref) (h : Heap) :
    Ref × Heap :=
  let a := h.alloc ((h.lookup optsRef).getD [])
  (a.1,
    (params.filter (fun p => p.paramType == "body")).foldl
      (bodyLoopStep a.1) a.2)

/-- Modelled from the spec: the remaining steps of the Parameter Binder
(section 4.2) — path substitution, query and form collection — are in
`lib/client.js`, which is not part of the source tree examined here. Per
the spec they read parameter values from the defensive clone and remove
path and query keys from it; the required-parameter check (which fails
without performing any write) is omitted as it writes nothing. -/
structure Plan where
  clone : Ref
  pathSubsts : List (String × HVal)
  query : List (String × HVal)
  form : List (String × HVal)

/-- Modelled from the spec: one Parameter Binder step for a declared
parameter present in the (cloned) option map. -/
def bindStep (options : Ref) (acc : Plan × Heap) (p : Param) : Plan × Heap :=
  let plan := acc.1
  let h := acc.2
  let v := h.getField options p.name
  if v = .hundefined then (plan, h)
  else if p.paramType == "path" then
    ({ plan with pathSubsts := plan.pathSubsts ++ [(p.name, v)] },
      h.deleteField options p.name)
  else if p.paramType == "query" then
    ({ plan with query := plan.query ++ [(p.name, v)] },
      h.deleteField options p.name)
  else if p.paramType == "form" then
    ({ plan with form := plan.form ++ [(p.name, v)] }, h)
  else (plan, h)

/-- Modelled from the spec: the Parameter Binder — body assembly through
`parseBodyParams` (translated from the source above), then path, query and
form processing on the clone. -/
def bindPlan (params : List Param) (optsRef : Ref) (h : Heap) : Plan × Heap :=
  let a := parseBodyParamsHeap params optsRef h
  params.foldl (bindStep a.1)
    ({ clone := a.1, pathSubsts := [], query := [], form := [] }, a.2)


/-! ## Frame lemmas: all writes hit the defensive clone -/

theorem Heap.next_alloc (h : Heap) (fs : List (String × HVal)) :
    (h.alloc fs).2.next = h.next + 1 := rfl

theorem Heap.alloc_fst (h : Heap) (fs : List (String × HVal)) :
    (h.alloc fs).1 = h.next := rfl

theorem Heap.lookup_alloc_of_lt (h : Heap) (fs : List (String × HVal))
    (r : Ref) (hr : r < h.next) :
    (h.alloc fs).2.lookup r = h.lookup r := by
  simp only [Heap.alloc, Heap.lookup, List.find?_append]
  cases hfind : h.objs.find? (fun p => p.1 == r) with
  | some p => simp
  | none =>
    have hne : (h.next == r) = false := beq_eq_false_iff_ne.mpr (Nat.ne_of_gt hr)
    simp [List.find?, hne]

theorem Heap.next_update (h : Heap) (t : Ref)
    (g : List (String × HVal) → List (String × HVal)) :
    (h.update t g).next = h.next := rfl

theorem find?_update_entry (l : List (Ref × List (String × HVal))) (r t : Ref)
    (g : List (String × HVal) → List (String × HVal)) (hne : r ≠ t) :
    (l.map (fun p => if p.1 == t then (p.1, g p.2) else p)).find?
        (fun p => p.1 == r) =
      l.find? (fun p => p.1 == r) := by
  induction l with
  | nil => rfl
  | cons p tl ih =>
    simp only [List.map_cons, List.find?]
    by_cases hp : p.1 = t
    · have hpr : (p.1 == r) = false :=
        beq_eq_false_iff_ne.mpr (by rw [hp]; exact Ne.symm hne)
      have hpt : (p.1 == t) = true := beq_iff_eq.mpr hp
      simp only [hpt, if_true, hpr, ih]
    · have hpt : (p.1 == t) = false := beq_eq_false_iff_ne.mpr hp
      simp only [hpt, Bool.false_eq_true, if_false]
      cases hpr : (p.1 == r) with
      | true => simp only [hpr]
      | false => simp only [hpr, ih]

theorem Heap.lookup_update_of_ne (h : Heap) (t : Ref)
    (g : List (String × HVal) → List (String × HVal)) (r : Ref) (hne : r ≠ t) :
    (h.update t g).lookup r = h.lookup r := by
  simp only [Heap.update, Heap.lookup]
  rw [find?_update_entry h.objs r t g hne]

theorem Heap.lookup_setField_of_ne (h : Heap) (t : Ref) (k : String) (v : HVal)
    (r : Ref) (hne : r ≠ t) :
    (h.setField t k v).lookup r = h.lookup r :=
  Heap.lookup_update_of_ne h t _ r hne

theorem Heap.lookup_deleteField_of_ne (h : Heap) (t : Ref) (k : String)
    (r : Ref) (hne : r ≠ t) :
    (h.deleteField t k).lookup r = h.lookup r :=
  Heap.lookup_update_of_ne h t _ r hne

/-- Folding a heap transformer that never writes below `target` preserves
every object below `target`. -/
theorem foldl_frame {σ β : Type _} (f : σ → β → σ) (hp : σ → Heap) (target : Nat)
    (l : List β) (s0 : σ)
    (hf : ∀ s b, target ≤ (hp s).next →
      target ≤ (hp (f s b)).next ∧
        ∀ r, r < target → (hp (f s b)).lookup r = (hp s).lookup r)
    (h0 : target ≤ (hp s0).next) :
    target ≤ (hp (l.foldl f s0)).next ∧
      ∀ r, r < target → (hp (l.foldl f s0)).lookup r = (hp s0).lookup r := by
  induction l generalizing s0 with
  | nil => exact ⟨h0, fun r _ => rfl⟩
  | cons b tl ih =>
    simp only [List.foldl_cons]
    obtain ⟨h1, h2⟩ := hf s0 b h0
    obtain ⟨h3, h4⟩ := ih (f s0 b) h1
    exact ⟨h3, fun r hr => (h4 r hr).trans (h2 r hr)⟩

theorem bodyLoopStep_frame (options : Ref) (target : Nat) (h : Heap) (p : Param)
    (hopt : target ≤ options) (hnext : target ≤ h.next) :
    target ≤ (bodyLoopStep options h p).next ∧
      ∀ r, r < target → (bodyLoopStep options h p).lookup r = h.lookup r := by
  have step2 : ∀ (h' : Heap), target ≤ h'.next →
      (∀ r, r < target → h'.lookup r = h.lookup r) →
      ∀ k1 k2 v,
        target ≤ ((h'.setField options k1 v).deleteField options k2).next ∧
          ∀ r, r < target →
            ((h'.setField options k1 v).deleteField options k2).lookup r =
              h.lookup r := by
    intro h' hn hl k1 k2 v
    refine ⟨?_, fun r hr => ?_⟩
    · simp only [Heap.deleteField, Heap.setField, Heap.next_update]
      exact hn
    · have hro : r ≠ options := by omega
      rw [Heap.lookup_deleteField_of_ne (h'.setField options k1 v) options k2 r hro,
        Heap.lookup_setField_of_ne h' options k1 v r hro]
      exact hl r hr
  unfold bodyLoopStep
  dsimp only
  split
  · split
    · refine step2 _ ?_ ?_ _ _ _
      · rw [Heap.next_alloc]
        omega
      · intro r hr
        have hrn : r < h.next := by omega
        exact Heap.lookup_alloc_of_lt h _ r hrn
    · split
      · refine step2 _ ?_ ?_ _ _ _
        · rw [Heap.next_alloc]
          omega
        · intro r hr
          have hrn : r < h.next := by omega
          exact Heap.lookup_alloc_of_lt h _ r hrn
      · exact step2 _ hnext (fun r hr => rfl) _ _ _
  · exact ⟨hnext, fun r hr => rfl⟩

/-- The reference returned by `parseBodyParamsHeap` is the fresh clone. -/
theorem parseBodyParamsHeap_fst (params : List Param) (optsRef : Ref) (h : Heap) :
    (parseBodyParamsHeap params optsRef h).1 = h.next := rfl

theorem parseBodyParamsHeap_frame (params : List Param) (optsRef : Ref) (h : Heap) :
    h.next ≤ (parseBodyParamsHeap params optsRef h).2.next ∧
      ∀ r, r < h.next →
        (parseBodyParamsHeap params optsRef h).2.lookup r = h.lookup r := by
  unfold parseBodyParamsHeap
  dsimp only
  rw [Heap.alloc_fst]
  obtain ⟨h1, h2⟩ :=
    foldl_frame (bodyLoopStep h.next) id h.next
      (params.filter (fun p => p.paramType == "body"))
      (h.alloc ((h.lookup optsRef).getD [])).2
      (fun s b hn => bodyLoopStep_frame h.next h.next s b (le_refl _) hn)
      (by simp only [id_eq, Heap.next_alloc]; omega)
  exact ⟨h1, fun r hr =>
    (h2 r hr).trans (Heap.lookup_alloc_of_lt h _ r hr)⟩

theorem bindStep_frame (options : Ref) (target : Nat) (s : Plan × Heap) (p : Param)
    (hopt : target ≤ options) (hnext : target ≤ s.2.next) :
    target ≤ (bindStep options s p).2.next ∧
      ∀ r, r < target → (bindStep options s p).2.lookup r = s.2.lookup r := by
  have hdel : ∀ (h : Heap) (k : String), target ≤ h.next →
      target ≤ (h.deleteField options k).next ∧
        ∀ r, r < target → (h.deleteField options k).lookup r = h.lookup r := by
    intro h k hn
    refine ⟨?_, fun r hr => ?_⟩
    · rw [Heap.deleteField, Heap.next_update]
      exact hn
    · have hro : r ≠ options := by omega
      exact Heap.lookup_deleteField_of_ne h options k r hro
  unfold bindStep
  dsimp only
  split
  · exact ⟨hnext, fun r hr => rfl⟩
  · split
    · exact hdel _ _ hnext
    · split
      · exact hdel _ _ hnext
      · split
        · exact ⟨hnext, fun r hr => rfl⟩
        · exact ⟨hnext, fun r hr => rfl⟩

theorem bindPlan_frame (params : List Param) (optsRef : Ref) (h : Heap) :
    h.next ≤ (bindPlan params optsRef h).2.next ∧
      ∀ r, r < h.next →
        (bindPlan params optsRef h).2.lookup r = h.lookup r := by
  unfold bindPlan
  dsimp only
  obtain ⟨h1, h2⟩ := parseBodyParamsHeap_frame params optsRef h
  obtain ⟨h3, h4⟩ :=
    foldl_frame (bindStep (parseBodyParamsHeap params optsRef h).1) Prod.snd h.next
      params
      ({ clone := (parseBodyParamsHeap params optsRef h).1, pathSubsts := [],
         query := [], form := [] }, (parseBodyParamsHeap params optsRef h).2)
      (fun s b hn =>
        bindStep_frame (parseBodyParamsHeap params optsRef h).1 h.next s b
          (by rw [parseBodyParamsHeap_fst]) hn)
      h1
  exact ⟨h3, fun r hr => (h4 r hr).trans (h2 r hr)⟩


/-! ## Properties of the option-map operations -/

theorem find?_set_map_self (l : List (String × JVal)) (k : String) (v : JVal)
    (hany : l.any (fun p => p.1 == k) = true) :
    (l.map (fun p => if p.1 == k then (k, v) else p)).find?
        (fun p => p.1 == k) = some (k, v) := by
  induction l with
  | nil => simp at hany
  | cons p t ih =>
    simp only [List.map_cons, List.find?]
    cases hpk : (p.1 == k) with
    | true =>
      simp only [hpk, if_true, List.find?, beq_self_eq_true]
    | false =>
      simp only [List.any_cons, hpk, Bool.false_or] at hany
      simp only [hpk, Bool.false_eq_true, if_false, List.find?, hpk, ih hany]

theorem find?_set_map_ne (l : List (String × JVal)) (k : String) (v : JVal)
    (k' : String) (hne : k' ≠ k) :
    (l.map (fun p => if p.1 == k then (k, v) else p)).find?
        (fun p => p.1 == k') = l.find? (fun p => p.1 == k') := by
  induction l with
  | nil => rfl
  | cons p t ih =>
    simp only [List.map_cons, List.find?]
    cases hpk : (p.1 == k) with
    | true =>
      have hp : p.1 = k := beq_iff_eq.mp hpk
      have h1 : (k == k') = false := beq_eq_false_iff_ne.mpr (Ne.symm hne)
      have h2 : (p.1 == k') = false := by rw [hp]; exact h1
      simp only [hpk, if_true, List.find?, h1, h2, ih]
    | false =>
      simp only [hpk, Bool.false_eq_true, if_false, List.find?]
      cases hpk' : (p.1 == k') with
      | true => rfl
      | false => simp only [ih]

theorem find?_filter_ne (l : List (String × JVal)) (k k' : String)
    (hne : k' ≠ k) :
    (l.filter (fun p => p.1 != k)).find? (fun p => p.1 == k') =
      l.find? (fun p => p.1 == k') := by
  induction l with
  | nil => rfl
  | cons p t ih =>
    simp only [List.filter_cons]
    cases hpk : (p.1 != k) with
    | false =>
      have hp : p.1 = k := by
        simpa using hpk
      have h2 : (p.1 == k') = false :=
        beq_eq_false_iff_ne.mpr (by rw [hp]; exact Ne.symm hne)
      simp only [Bool.false_eq_true, if_false, List.find?, h2, ih]
    | true =>
      simp only [if_true, List.find?]
      cases hpk' : (p.1 == k') with
      | true => rfl
      | false => simp only [ih]

theorem objGet_objSet_self (o : List (String × JVal)) (k : String) (v : JVal) :
    objGet (objSet o k v) k = v := by
  unfold objSet objGet
  cases hany : o.any (fun p => p.1 == k) with
  | true =>
    simp only [hany, if_true, find?_set_map_self o k v hany]
  | false =>
    have hnone : o.find? (fun p => p.1 == k) = none := by
      rw [List.find?_eq_none]
      intro x hx
      have := (List.any_eq_false).mp hany x hx
      simpa using this
    simp only [hany, Bool.false_eq_true, if_false, List.find?_append, hnone,
      Option.none_orElse, List.find?, beq_self_eq_true, Option.none_or]

theorem objGet_objSet_ne (o : List (String × JVal)) (k : String) (v : JVal)
    (k' : String) (hne : k' ≠ k) :
    objGet (objSet o k v) k' = objGet o k' := by
  unfold objSet objGet
  cases hany : o.any (fun p => p.1 == k) with
  | true =>
    simp only [hany, if_true, find?_set_map_ne o k v k' hne]
  | false =>
    have h1 : (k == k') = false := beq_eq_false_iff_ne.mpr (Ne.symm hne)
    simp only [hany, Bool.false_eq_true, if_false, List.find?_append]
    cases hfind : o.find? (fun p => p.1 == k') with
    | some p => simp
    | none => simp [List.find?, h1]

theorem objGet_objDelete_ne (o : List (String × JVal)) (k k' : String)
    (hne : k' ≠ k) :
    objGet (objDelete o k) k' = objGet o k' := by
  unfold objDelete objGet
  rw [find?_filter_ne o k k' hne]

theorem objGet_eq_undef_of_hasKey_false (o : List (String × JVal)) (k : String)
    (h : objHasKey o k = false) :
    objGet o k = .undefined := by
  unfold objGet
  have hnone : o.find? (fun p => p.1 == k) = none := by
    rw [List.find?_eq_none]
    intro x hx
    have := (List.any_eq_false).mp h x hx
    simpa using this
  simp [hnone]

/-! ## The body produced by `parseBodyParams` -/

/-- The wrap applied by `parseBodyParams` to a body value, as a function of
the parameter name and the value read from the option map (in the source
the wrap test re-reads `options.variables`, which at that point is exactly
the value read for the parameter named `variables`). -/
def wrapBody (name : String) (v : JVal) : JVal :=
  if name == "variables" && !truthy (member v "variables") then
    JVal.obj [("variables", v)]
  else if name == "fields" && !truthy (member v "fields") then
    JVal.obj [("fields", v)]
  else v

theorem processBodyParam_eq (options : List (String × JVal)) (p : Param) :
    processBodyParam options p =
      if truthy (objGet options p.name) then
        objDelete (objSet options "body"
          (JVal.str (stringify (wrapBody p.name (objGet options p.name)))))
          p.name
      else options := by
  unfold processBodyParam wrapBody
  dsimp only
  by_cases hvar : p.name = "variables"
  · rw [hvar]
    rfl
  · have hv : (p.name == "variables") = false := beq_eq_false_iff_ne.mpr hvar
    rw [hv]
    by_cases hfld : p.name = "fields"
    · rw [hfld]
      rfl
    · have hf : (p.name == "fields") = false := beq_eq_false_iff_ne.mpr hfld
      rw [hf]
      rfl

/-- The last body parameter of the list whose value in `opts` is truthy. -/
def lastTruthyBodyParam (opts : List (String × JVal)) : List Param → Option Param
  | [] => none
  | p :: rest =>
    match lastTruthyBodyParam opts rest with
    | some q => some q
    | none => if truthy (objGet opts p.name) then some p else none

theorem foldl_body_last (opts : List (String × JVal)) (bps : List Param)
    (options : List (String × JVal))
    (hnodup : (bps.map Param.name).Nodup)
    (hnb : "body" ∉ bps.map Param.name)
    (hagree : ∀ q ∈ bps, objGet options q.name = objGet opts q.name) :
    objGet (bps.foldl processBodyParam options) "body" =
      match lastTruthyBodyParam opts bps with
      | some p => JVal.str (stringify (wrapBody p.name (objGet opts p.name)))
      | none => objGet options "body" := by
  induction bps generalizing options with
  | nil => rfl
  | cons p rest ih =>
    simp only [List.map_cons, List.nodup_cons] at hnodup
    simp only [List.map_cons, List.mem_cons, not_or] at hnb
    have hagp : objGet options p.name = objGet opts p.name :=
      hagree p (List.mem_cons_self p rest)
    simp only [List.foldl_cons, processBodyParam_eq, hagp]
    by_cases hv : truthy (objGet opts p.name) = true
    · rw [if_pos hv]
      have hagree2 : ∀ q ∈ rest,
          objGet (objDelete (objSet options "body"
              (JVal.str (stringify (wrapBody p.name (objGet opts p.name)))))
              p.name) q.name =
            objGet opts q.name := by
        intro q hq
        have hqp : q.name ≠ p.name := by
          intro hEq
          exact hnodup.1 (hEq ▸ List.mem_map_of_mem Param.name hq)
        have hqb : q.name ≠ "body" := by
          intro hEq
          exact hnb.2 (hEq ▸ List.mem_map_of_mem Param.name hq)
        rw [objGet_objDelete_ne _ _ _ hqp, objGet_objSet_ne _ _ _ _ hqb]
        exact hagree q (List.mem_cons_of_mem p hq)
      have hrec := ih (objDelete (objSet options "body"
          (JVal.str (stringify (wrapBody p.name (objGet opts p.name)))))
          p.name) hnodup.2 (fun hmem => hnb.2 hmem) hagree2
      cases hlast : lastTruthyBodyParam opts rest with
      | some q =>
        rw [hlast] at hrec
        simp only [lastTruthyBodyParam, hlast]
        exact hrec
      | none =>
        rw [hlast] at hrec
        simp only [lastTruthyBodyParam, hlast, hv, if_true]
        rw [hrec, objGet_objDelete_ne _ _ _ hnb.1, objGet_objSet_self]
    · have hv2 : truthy (objGet opts p.name) = false := by
        cases h : truthy (objGet opts p.name) with
        | true => exact absurd h hv
        | false => rfl
      rw [hv2]
      simp only [Bool.false_eq_true, if_false]
      have hrec := ih options hnodup.2 (fun hmem => hnb.2 hmem)
        (fun q hq => hagree q (List.mem_cons_of_mem p hq))
      cases hlast : lastTruthyBodyParam opts rest with
      | some q =>
        rw [hlast] at hrec
        simp only [lastTruthyBodyParam, hlast]
        exact hrec
      | none =>
        rw [hlast] at hrec
        simp only [lastTruthyBodyParam, hlast, hv2, Bool.false_eq_true, if_false]
        exact hrec

theorem foldl_id_of_falsy (opts : List (String × JVal)) (l : List Param)
    (h : ∀ p ∈ l, truthy (objGet opts p.name) = false) :
    l.foldl processBodyParam opts = opts := by
  induction l with
  | nil => rfl
  | cons p t ih =>
    simp only [List.foldl_cons, processBodyParam_eq,
      h p (List.mem_cons_self p t), Bool.false_eq_true, if_false]
    exact ih (fun q hq => h q (List.mem_cons_of_mem p hq))


/-- Whether a value is an object carrying the key `k` at top level. -/
def jsHasMember (v : JVal) (k : String) : Bool :=
  match v with
  | .obj fs => objHasKey fs k
  | _ => false

theorem member_eq_undef_of_not_hasMember (v : JVal) (k : String)
    (h : jsHasMember v k = false) : member v k = .undefined := by
  cases v with
  | obj fs => exact objGet_eq_undef_of_hasKey_false fs k h
  | undefined => rfl
  | null => rfl
  | bool b => rfl
  | num n => rfl
  | str s => rfl
  | arr a => rfl

/-! ## Fixtures: the `originate` call of the test suite -/

/-- The parameters of the originate operation that matter to body
assembly, as in the test `should allow passing function variables`. -/
def originateParams : List Param :=
  [⟨"endpoint", "query"⟩, ⟨"app", "query"⟩, ⟨"variables", "body"⟩]

/-- The caller option map of the originate test, as a pure value. -/
def aliceOpts : List (String × JVal) :=
  [("endpoint", JVal.str "PJSIP/softphone"), ("app", JVal.str "unittests"),
   ("variables", JVal.obj [("CALLERID(name)", JVal.str "Alice")])]

/-- The caller option map of the originate test, as an object graph:
object 0 is the option map, whose `variables` field references object 1. -/
def aliceHeap : Heap :=
  ⟨[(0, [("endpoint", .hstr "PJSIP/softphone"), ("app", .hstr "unittests"),
         ("variables", .href 1)]),
    (1, [("CALLERID(name)", .hstr "Alice")])], 2⟩

/-- The body the test expects on the wire. -/
def aliceBody : String :=
  "\x7b\"variables\":\x7b\"CALLERID(name)\":\"Alice\"\x7d\x7d"

/-! ## Claims about body assembly -/

/-- C1, counterexample: with two body-placement parameters `a` and `b`
both present, the body produced by `parseBodyParams` is the serialization
of the last one alone (`"2"`), not the JSON object merging both keyed by
parameter name (`\x7b"a":1,"b":2\x7d`): each loop iteration overwrites
`options.body`. -/
theorem parseBodyParams_no_merge_counterexample :
    objGet
        (parseBodyParams [⟨"a", "body"⟩, ⟨"b", "body"⟩]
          [("a", JVal.num 1), ("b", JVal.num 2)]) "body" =
      JVal.str "2" ∧
    JVal.str "2" ≠
      JVal.str (stringify (JVal.obj [("a", JVal.num 1), ("b", JVal.num 2)])) := by
  refine ⟨rfl, ?_⟩
  intro hEq
  injection hEq with hEq
  exact absurd hEq (by decide)

/-- C1 (amended): when exactly one body-placement parameter is present
(truthy) in the options the produced body is its (possibly wrapped) JSON
serialization; when two or more are present the produced body is the
(possibly wrapped) JSON serialization of the **last** body parameter
present — each iteration overwrites `options.body`, so no merge occurs.
When none is present the options are returned with their `body` key
untouched. (Hypotheses: the declared body parameters have pairwise
distinct names and none is itself named `body`.) -/
theorem parseBodyParams_body_is_last (params : List Param)
    (opts : List (String × JVal))
    (hnodup : ((params.filter (fun p => p.paramType == "body")).map
      Param.name).Nodup)
    (hnb : "body" ∉ (params.filter (fun p => p.paramType == "body")).map
      Param.name) :
    objGet (parseBodyParams params opts) "body" =
      match lastTruthyBodyParam opts
          (params.filter (fun p => p.paramType == "body")) with
      | some p => JVal.str (stringify (wrapBody p.name (objGet opts p.name)))
      | none => objGet opts "body" :=
  foldl_body_last opts _ opts hnodup hnb (fun _ _ => rfl)

/-- C1, witness: the amended statement applied to the two-body-parameter
counterexample input evaluates to the serialization of the last
parameter. -/
theorem parseBodyParams_body_is_last_witness :
    objGet
        (parseBodyParams [⟨"a", "body"⟩, ⟨"b", "body"⟩]
          [("a", JVal.num 1), ("b", JVal.num 2)]) "body" =
      match lastTruthyBodyParam [("a", JVal.num 1), ("b", JVal.num 2)]
          (([⟨"a", "body"⟩, ⟨"b", "body"⟩] : List Param).filter
            (fun p => p.paramType == "body")) with
      | some p =>
        JVal.str (stringify (wrapBody p.name
          (objGet [("a", JVal.num 1), ("b", JVal.num 2)] p.name)))
      | none => objGet [("a", JVal.num 1), ("b", JVal.num 2)] "body" :=
  parseBodyParams_body_is_last [⟨"a", "body"⟩, ⟨"b", "body"⟩]
    [("a", JVal.num 1), ("b", JVal.num 2)] (by decide) (by decide)

/-- C2: invoking an operation leaves the caller-supplied option map
byte-identical, nested values included: every object allocated before the
call — in particular the option map and everything reachable from it —
has exactly the same field list after the Parameter Binder (body assembly
from the source plus the spec-modelled path/query/form steps) has run; the
binder writes only to its defensive clone and to fresh wrapper objects. -/
theorem operations_do_not_mutate_options (params : List Param) (optsRef : Ref)
    (h : Heap) (r : Ref) (hr : r < h.next) :
    (bindPlan params optsRef h).2.lookup r = h.lookup r :=
  (bindPlan_frame params optsRef h).2 r hr

/-- C2, witness: binding the originate operation over the concrete test
option map leaves both the option map object and the nested variables
object unchanged. -/
theorem operations_do_not_mutate_options_witness :
    (0 < aliceHeap.next ∧
      (bindPlan originateParams 0 aliceHeap).2.lookup 0 = aliceHeap.lookup 0) ∧
    1 < aliceHeap.next ∧
      (bindPlan originateParams 0 aliceHeap).2.lookup 1 = aliceHeap.lookup 1 :=
  ⟨⟨by decide, operations_do_not_mutate_options originateParams 0 aliceHeap 0
      (by decide)⟩,
    by decide, operations_do_not_mutate_options originateParams 0 aliceHeap 1
      (by decide)⟩

/-- C3: for an option map whose single body-placement parameter is named
`variables` (respectively `fields`) and whose value is not already wrapped
under a top-level `variables` (respectively `fields`) key, body assembly
wraps the value exactly once: the produced body is the serialization of
`\x7b nm : value \x7d`; moreover, on the concrete originate example, running the
heap-level body assembly twice in sequence over the same caller option map
produces the exact single-wrapped body
`\x7b"variables":\x7b"CALLERID(name)":"Alice"\x7d\x7d` both times — the second
invocation does not wrap again because the caller map was not mutated. -/
theorem variables_and_fields_wrapped_once (params : List Param)
    (opts : List (String × JVal)) (nm : String) (p : Param)
    (hnm : nm = "variables" ∨ nm = "fields")
    (hbp : params.filter (fun q => q.paramType == "body") = [p])
    (hpname : p.name = nm)
    (hv : truthy (objGet opts nm) = true)
    (hkey : jsHasMember (objGet opts nm) nm = false) :
    objGet (parseBodyParams params opts) "body" =
        JVal.str (stringify (JVal.obj [(nm, objGet opts nm)])) ∧
    (parseBodyParamsHeap originateParams 0 aliceHeap).2.getField
        (parseBodyParamsHeap originateParams 0 aliceHeap).1 "body" =
      .hstr aliceBody ∧
    (parseBodyParamsHeap originateParams 0
          (parseBodyParamsHeap originateParams 0 aliceHeap).2).2.getField
        (parseBodyParamsHeap originateParams 0
          (parseBodyParamsHeap originateParams 0 aliceHeap).2).1 "body" =
      .hstr aliceBody := by
  refine ⟨?_, rfl, rfl⟩
  have hnmb : "body" ≠ nm := by
    cases hnm with
    | inl hEq => rw [hEq]; decide
    | inr hEq => rw [hEq]; decide
  have hwrap : wrapBody nm (objGet opts nm) = JVal.obj [(nm, objGet opts nm)] := by
    have hmem := member_eq_undef_of_not_hasMember (objGet opts nm) nm hkey
    cases hnm with
    | inl hEq =>
      subst hEq
      unfold wrapBody
      rw [hmem]
      rfl
    | inr hEq =>
      subst hEq
      unfold wrapBody
      rw [hmem]
      rfl
  unfold parseBodyParams
  rw [hbp]
  simp only [List.foldl_cons, List.foldl_nil, processBodyParam_eq, hpname,
    hv, if_true]
  rw [objGet_objDelete_ne _ _ _ hnmb, objGet_objSet_self, hwrap]

/-- C3, witness: the general wrap statement applied to the concrete
originate option map of the test suite. -/
theorem variables_and_fields_wrapped_once_witness :
    objGet (parseBodyParams originateParams aliceOpts) "body" =
      JVal.str (stringify (JVal.obj [("variables", objGet aliceOpts
        "variables")])) :=
  (variables_and_fields_wrapped_once originateParams aliceOpts "variables"
    ⟨"variables", "body"⟩ (Or.inl rfl) (by decide) rfl (by decide)
    (by decide)).1

/-- C10: a body-placement parameter whose value in the option map is falsy
(absent key, `null`, `false`, `0` or the empty string) is skipped by body
assembly — the loop guard tests JavaScript truthiness of the value, not
key membership: the iteration returns the options unchanged (no body
produced from it, its key not removed), and when every body parameter is
falsy the whole of `parseBodyParams` is the identity on the options. -/
theorem falsy_body_params_skipped :
    (∀ (options : List (String × JVal)) (p : Param),
      truthy (objGet options p.name) = false →
        processBodyParam options p = options) ∧
    ∀ (params : List Param) (opts : List (String × JVal)),
      (∀ p ∈ params, p.paramType = "body" →
        truthy (objGet opts p.name) = false) →
      parseBodyParams params opts = opts := by
  constructor
  · intro options p hfalsy
    rw [processBodyParam_eq, hfalsy]
    simp
  · intro params opts hfalsy
    unfold parseBodyParams
    refine foldl_id_of_falsy opts _ ?_
    intro p hp
    rw [List.mem_filter] at hp
    exact hfalsy p hp.1 (beq_iff_eq.mp hp.2)

/-- C10, witness: an option map binding `v` to `null`, `w` to `false`,
`x` to `0` and `y` to the empty string — all keys present, all values
falsy — passes through body assembly unchanged even though every declared
parameter is body-placed. -/
theorem falsy_body_params_skipped_witness :
    processBodyParam [("x", JVal.num 0)] ⟨"x", "body"⟩ = [("x", JVal.num 0)] ∧
    parseBodyParams
        [⟨"v", "body"⟩, ⟨"w", "body"⟩, ⟨"x", "body"⟩, ⟨"y", "body"⟩,
          ⟨"z", "body"⟩]
        [("v", JVal.null), ("w", JVal.bool false), ("x", JVal.num 0),
          ("y", JVal.str "")] =
      [("v", JVal.null), ("w", JVal.bool false), ("x", JVal.num 0),
        ("y", JVal.str "")] :=
  ⟨falsy_body_params_skipped.1 [("x", JVal.num 0)] ⟨"x", "body"⟩ (by decide),
    falsy_body_params_skipped.2 _ _ (by decide)⟩



/-! ## Event router and listener tables

The router and the per-resource event mixin live in library files that are
not part of the source tree examined here (only `lib/utils.js`, the
examples and the test suite are); the definitions below are modelled from
the specification, sections 3 (KnownKinds, identity rules, listener
tables) and 4.6 (dispatch algorithm). -/

/-- Modelled from the spec: the closed set of KnownKinds (section 3); the
resource code itself (lib/resources.js) is missing from the sources. -/
inductive Kind where
  | bridge : Kind
  | channel : Kind
  | playback : Kind
  | liveRecording : Kind
  | mailbox : Kind
  | deviceState : Kind
  | endpoint : Kind
  | sound : Kind
  | application : Kind
deriving DecidableEq, Repr

/-- Modelled from the spec: identity rules (section 3) — the key is `id`
for most kinds and `name` for Mailbox, Sound, DeviceState, Endpoint and
LiveRecording. -/
def identityField : Kind → String
  | .bridge => "id"
  | .channel => "id"
  | .playback => "id"
  | .application => "id"
  | .liveRecording => "name"
  | .mailbox => "name"
  | .deviceState => "name"
  | .endpoint => "name"
  | .sound => "name"

/-- The (kind, identity) pair that scopes per-instance listeners. -/
structure InstanceKey where
  kind : Kind
  ident : String
deriving DecidableEq, Repr

/-- A listener registration: the callback is identified by identity (as in
the EventEmitter design of the source), together with its `once` flag. -/
structure Listener where
  cb : Nat
  once : Bool
deriving DecidableEq, Repr

/-- Where a fired listener was registered: on the client, or scoped to a
resource instance. -/
inductive Origin where
  | client : Origin
  | inst : InstanceKey → Origin
deriving DecidableEq, Repr

/-- Modelled from the spec: the listener tables (section 3) — client-wide
and per-instance, each kept in registration order. -/
structure RouterState where
  clientListeners : List (String × Listener)
  instListeners : List (InstanceKey × String × Listener)

/-- An event envelope: the `type` tag plus the JSON payload. -/
structure Event where
  type : String
  payload : List (String × JVal)

/-- Modelled from the spec: an event schema maps an event name to the
payload fields whose declared type names a KnownKind, in descriptor
order (sections 3 and 4.6). -/
abbrev EventSchema := List (String × List (String × Kind))

/-- The promotable fields of an event type; an unknown type has none and
is still delivered to client-wide listeners. -/
def schemaFields (schema : EventSchema) (ty : String) : List (String × Kind) :=
  match schema.find? (fun e => e.1 == ty) with
  | some e => e.2
  | none => []

/-- Modelled from the spec: promotion of one payload field (section 4.6
step 2 with the identity rules of section 3): when the payload carries the
field and the field value carries the kind identity key, an instance
(kind, identity) is promoted; when the payload lacks the expected field no
promotion occurs for that field. -/
def promoteField (payload : List (String × JVal)) (f : String × Kind) :
    Option InstanceKey :=
  match objGet payload f.1 with
  | .obj fields =>
    match objGet fields (identityField f.2) with
    | .str s => some ⟨f.2, s⟩
    | .num n => some ⟨f.2, toString n⟩
    | _ => none
  | _ => none

/-- The promoted set of an event, in descriptor order. -/
def promote (schema : EventSchema) (ev : Event) : List InstanceKey :=
  (schemaFields schema ev.type).filterMap (promoteField ev.payload)

/-- Modelled from the spec: dispatch (section 4.6) — client-wide listeners
for the type fire first in registration order, then for each promoted
instance the listeners registered on that (kind, identity) for the type in
registration order; `once` listeners are removed before invocation (the
returned state no longer contains them). -/
def dispatch (schema : EventSchema) (s : RouterState) (ev : Event) :
    List (Origin × Listener) × RouterState :=
  let promoted := promote schema ev
  let firedClient := (s.clientListeners.filter (fun e => e.1 == ev.type)).map
    (fun e => ((Origin.client : Origin), e.2))
  let firedInst := promoted.flatMap (fun k =>
    (s.instListeners.filter (fun e => e.1 == k && e.2.1 == ev.type)).map
      (fun e => (Origin.inst e.1, e.2.2)))
  (firedClient ++ firedInst,
    { clientListeners := s.clientListeners.filter
        (fun e => !(e.1 == ev.type && e.2.once)),
      instListeners := s.instListeners.filter
        (fun e => !(decide (e.1 ∈ promoted) && e.2.1 == ev.type && e.2.2.once)) })

/-! ### Counting fired listeners -/

theorem count_client_fired (cl : List (String × Listener)) (T : String)
    (Lc : Listener) :
    ((cl.filter (fun e => e.1 == T)).map
        (fun e => ((Origin.client : Origin), e.2))).count
      (Origin.client, Lc) = cl.count (T, Lc) := by
  rw [List.count, List.countP_map, List.countP_filter, List.count]
  refine List.countP_congr ?_
  intro e _
  obtain ⟨t, L⟩ := e
  simp only [Function.comp_apply, Bool.and_eq_true, beq_iff_eq,
    Prod.mk.injEq]
  constructor
  · rintro ⟨⟨-, hL⟩, ht⟩
    exact ⟨ht, hL⟩
  · rintro ⟨ht, hL⟩
    exact ⟨⟨by trivial, hL⟩, ht⟩

theorem count_inst_zero_in_client_fired (cl : List (String × Listener))
    (T : String) (key : InstanceKey) (Li : Listener) :
    ((cl.filter (fun e => e.1 == T)).map
        (fun e => ((Origin.client : Origin), e.2))).count
      (Origin.inst key, Li) = 0 := by
  rw [List.count, List.countP_eq_zero]
  intro x hx
  rcases List.mem_map.mp hx with ⟨e, -, heq⟩
  rw [← heq]
  simp

theorem count_block (il : List (InstanceKey × String × Listener))
    (k : InstanceKey) (T : String) (key : InstanceKey) (Li : Listener) :
    ((il.filter (fun e => e.1 == k && e.2.1 == T)).map
        (fun e => (Origin.inst e.1, e.2.2))).count (Origin.inst key, Li) =
      if k == key then il.count (key, T, Li) else 0 := by
  rw [List.count, List.countP_map, List.countP_filter]
  by_cases hk : k = key
  · subst hk
    rw [if_pos (beq_iff_eq.mpr rfl), List.count]
    refine List.countP_congr ?_
    intro e _
    obtain ⟨ek, et, eL⟩ := e
    simp only [Function.comp_apply, Bool.and_eq_true, beq_iff_eq,
      Prod.mk.injEq, Origin.inst.injEq]
    constructor
    · rintro ⟨⟨hek, heL⟩, -, het⟩
      exact ⟨hek, het, heL⟩
    · rintro ⟨hek, het, heL⟩
      exact ⟨⟨hek, heL⟩, hek, het⟩
  · rw [if_neg (by simpa using hk), List.countP_eq_zero]
    intro e _
    obtain ⟨ek, et, eL⟩ := e
    simp only [Function.comp_apply, Bool.and_eq_true, beq_iff_eq,
      Prod.mk.injEq, Origin.inst.injEq, not_and]
    rintro ⟨h1, -⟩ h2 -
    exact hk (h2 ▸ h1)

theorem count_inst_fired (il : List (InstanceKey × String × Listener))
    (promoted : List InstanceKey) (T : String) (key : InstanceKey)
    (Li : Listener) :
    (promoted.flatMap (fun k =>
        (il.filter (fun e => e.1 == k && e.2.1 == T)).map
          (fun e => (Origin.inst e.1, e.2.2)))).count (Origin.inst key, Li) =
      promoted.count key * il.count (key, T, Li) := by
  induction promoted with
  | nil => simp
  | cons k ks ih =>
    rw [List.flatMap_cons, List.count_append, ih, count_block,
      List.count_cons]
    cases hk : (k == key) with
    | true =>
      simp only [hk, if_true]
      ring
    | false =>
      simp only [hk, Bool.false_eq_true, if_false]
      ring

theorem count_client_zero_in_inst_fired
    (il : List (InstanceKey × String × Listener))
    (promoted : List InstanceKey) (T : String) (Lc : Listener) :
    (promoted.flatMap (fun k =>
        (il.filter (fun e => e.1 == k && e.2.1 == T)).map
          (fun e => (Origin.inst e.1, e.2.2)))).count
      ((Origin.client : Origin), Lc) = 0 := by
  rw [List.count, List.countP_eq_zero]
  intro x hx
  rcases List.mem_flatMap.mp hx with ⟨k, -, hb⟩
  rcases List.mem_map.mp hb with ⟨e, -, heq⟩
  rw [← heq]
  simp

theorem count_after_client (cl : List (String × Listener)) (T : String)
    (Lc : Listener) (honce : Lc.once = true) :
    (cl.filter (fun e => !(e.1 == T && e.2.once))).count (T, Lc) = 0 := by
  rw [List.count, List.countP_filter, List.countP_eq_zero]
  intro e _
  obtain ⟨t, L⟩ := e
  by_cases he : (t, L) = (T, Lc)
  · rw [Prod.mk.injEq] at he
    obtain ⟨rfl, rfl⟩ := he
    simp [honce]
  · have hb : ((t, L) == (T, Lc)) = false := beq_eq_false_iff_ne.mpr he
    simp [hb]

theorem count_after_inst (il : List (InstanceKey × String × Listener))
    (promoted : List InstanceKey) (T : String) (key : InstanceKey)
    (Li : Listener) (honce : Li.once = true) (hkey : key ∈ promoted) :
    (il.filter (fun e =>
        !(decide (e.1 ∈ promoted) && e.2.1 == T && e.2.2.once))).count
      (key, T, Li) = 0 := by
  rw [List.count, List.countP_filter, List.countP_eq_zero]
  intro e _
  obtain ⟨ek, et, eL⟩ := e
  by_cases he : (ek, et, eL) = (key, T, Li)
  · have h1 : ek = key := congrArg Prod.fst he
    have h2 : et = T := congrArg (fun x => x.2.1) he
    have h3 : eL = Li := congrArg (fun x => x.2.2) he
    subst h1
    subst h2
    subst h3
    simp [honce, hkey]
  · have hb : ((ek, et, eL) == (key, T, Li)) = false :=
      beq_eq_false_iff_ne.mpr he
    simp [hb]



/-! ### Claims about the event router -/

/-- C4: an event dispatched by the router fires a listener registered on a
resource instance for the event type if and only if the promoted set of
the event contains an instance whose (kind, identity) equals that of the
instance the listener is scoped to; scoped listeners of other instances
(of the same kind or not) do not fire. -/
theorem scoped_listener_fires_iff (schema : EventSchema) (s : RouterState)
    (ev : Event) (key : InstanceKey) (L : Listener)
    (hreg : (key, ev.type, L) ∈ s.instListeners) :
    (Origin.inst key, L) ∈ (dispatch schema s ev).1 ↔
      key ∈ promote schema ev := by
  unfold dispatch
  dsimp only
  constructor
  · intro hmem
    rcases List.mem_append.mp hmem with hcl | hin
    · exfalso
      rcases List.mem_map.mp hcl with ⟨e, -, heq⟩
      exact Origin.noConfusion (congrArg Prod.fst heq)
    · rcases List.mem_flatMap.mp hin with ⟨k, hkmem, hb⟩
      rcases List.mem_map.mp hb with ⟨e, hef, heq⟩
      rcases List.mem_filter.mp hef with ⟨-, hcond⟩
      have h1 : e.1 = key := Origin.inst.inj (congrArg Prod.fst heq)
      simp only [Bool.and_eq_true, beq_iff_eq] at hcond
      have h2 : e.1 = k := hcond.1
      have h3 : k = key := h2 ▸ h1
      exact h3 ▸ hkmem
  · intro hkey
    refine List.mem_append.mpr (Or.inr ?_)
    refine List.mem_flatMap.mpr ⟨key, hkey, ?_⟩
    refine List.mem_map.mpr ⟨(key, ev.type, L), ?_, rfl⟩
    refine List.mem_filter.mpr ⟨hreg, ?_⟩
    simp

/-- The event schema used by the scoped-event tests: `BridgeDestroyed`
promotes its `bridge` field, `ChannelDtmfReceived` its `channel` field. -/
def testSchema : EventSchema :=
  [("BridgeDestroyed", [("bridge", Kind.bridge)]),
   ("ChannelDtmfReceived", [("channel", Kind.channel)])]

/-- A router state with one client-wide and one scoped listener for
`ChannelDtmfReceived`, both registered `once`. -/
def dtmfState : RouterState :=
  ⟨[("ChannelDtmfReceived", ⟨0, true⟩)],
   [(⟨Kind.channel, "c1"⟩, "ChannelDtmfReceived", ⟨1, true⟩)]⟩

/-- First DTMF event referencing channel `c1`. -/
def dtmfEvent1 : Event :=
  ⟨"ChannelDtmfReceived",
   [("digit", JVal.str "1"), ("channel", JVal.obj [("id", JVal.str "c1")])]⟩

/-- Second DTMF event referencing channel `c1`. -/
def dtmfEvent2 : Event :=
  ⟨"ChannelDtmfReceived",
   [("digit", JVal.str "2"), ("channel", JVal.obj [("id", JVal.str "c1")])]⟩

/-- C4, witness: a scoped listener on bridge `b1` fires for a
`BridgeDestroyed` event that promotes bridge `b1`. -/
theorem scoped_listener_fires_iff_witness :
    ((⟨Kind.bridge, "b1"⟩, "BridgeDestroyed", (⟨7, false⟩ : Listener)) ∈
      (RouterState.mk [("BridgeDestroyed", ⟨5, false⟩)]
        [(⟨Kind.bridge, "b1"⟩, "BridgeDestroyed", ⟨7, false⟩)]).instListeners) ∧
    ((Origin.inst ⟨Kind.bridge, "b1"⟩, (⟨7, false⟩ : Listener)) ∈
        (dispatch testSchema
          (RouterState.mk [("BridgeDestroyed", ⟨5, false⟩)]
            [(⟨Kind.bridge, "b1"⟩, "BridgeDestroyed", ⟨7, false⟩)])
          ⟨"BridgeDestroyed",
            [("bridge", JVal.obj [("id", JVal.str "b1")])]⟩).1 ↔
      (⟨Kind.bridge, "b1"⟩ : InstanceKey) ∈
        promote testSchema
          ⟨"BridgeDestroyed", [("bridge", JVal.obj [("id", JVal.str "b1")])]⟩) :=
  ⟨by decide,
    scoped_listener_fires_iff testSchema
      (RouterState.mk [("BridgeDestroyed", ⟨5, false⟩)]
        [(⟨Kind.bridge, "b1"⟩, "BridgeDestroyed", ⟨7, false⟩)])
      ⟨"BridgeDestroyed", [("bridge", JVal.obj [("id", JVal.str "b1")])]⟩
      ⟨Kind.bridge, "b1"⟩ ⟨7, false⟩ (by decide)⟩

/-- C5: a listener registered `once` — on the client or scoped to a
resource instance — fires exactly once when two events of its type are
delivered (each reaching it: type matches and, for the scoped listener,
the instance is promoted once by each event): it fires once during the
first dispatch, zero times during calculating the second, and the first
dispatch already removed it from the listener tables (removal happens
before invocation, so the state returned alongside the fired list no
longer contains it). -/
theorem once_listener_fires_exactly_once (schema : EventSchema)
    (s : RouterState) (ev1 ev2 : Event) (T : String) (key : InstanceKey)
    (Lc Li : Listener)
    (hc1 : Lc.once = true) (hi1 : Li.once = true)
    (hcc : s.clientListeners.count (T, Lc) = 1)
    (hic : s.instListeners.count (key, T, Li) = 1)
    (ht1 : ev1.type = T) (ht2 : ev2.type = T)
    (hp1 : (promote schema ev1).count key = 1)
    (_hp2 : (promote schema ev2).count key = 1) :
    ((dispatch schema s ev1).1.count (Origin.client, Lc) = 1 ∧
      (dispatch schema s ev1).1.count (Origin.inst key, Li) = 1) ∧
    ((dispatch schema (dispatch schema s ev1).2 ev2).1.count
        (Origin.client, Lc) = 0 ∧
      (dispatch schema (dispatch schema s ev1).2 ev2).1.count
        (Origin.inst key, Li) = 0) ∧
    (dispatch schema s ev1).2.clientListeners.count (T, Lc) = 0 ∧
    (dispatch schema s ev1).2.instListeners.count (key, T, Li) = 0 := by
  have hkey1 : key ∈ promote schema ev1 := by
    refine List.count_pos_iff.mp ?_
    omega
  unfold dispatch
  dsimp only
  rw [ht1, ht2]
  refine ⟨⟨?_, ?_⟩, ⟨?_, ?_⟩, ?_, ?_⟩
  · rw [List.count_append, count_client_fired,
      count_client_zero_in_inst_fired, hcc]
  · rw [List.count_append, count_inst_zero_in_client_fired,
      count_inst_fired, hp1, hic]
  · rw [List.count_append, count_client_fired,
      count_client_zero_in_inst_fired, count_after_client _ _ _ hc1]
  · rw [List.count_append, count_inst_zero_in_client_fired,
      count_inst_fired, count_after_inst _ _ _ _ _ hi1 hkey1]
    simp
  · exact count_after_client s.clientListeners T Lc hc1
  · exact count_after_inst s.instListeners (promote schema ev1) T key Li
      hi1 hkey1

/-- C5, witness: the once listeners of the DTMF fixture fire exactly once
over two deliveries of `ChannelDtmfReceived` for channel `c1`. -/
theorem once_listener_fires_exactly_once_witness :
    (dtmfState.clientListeners.count ("ChannelDtmfReceived",
        (⟨0, true⟩ : Listener)) = 1 ∧
      (promote testSchema dtmfEvent1).count ⟨Kind.channel, "c1"⟩ = 1) ∧
    ((dispatch testSchema dtmfState dtmfEvent1).1.count
        (Origin.client, ⟨0, true⟩) = 1 ∧
      (dispatch testSchema dtmfState dtmfEvent1).1.count
        (Origin.inst ⟨Kind.channel, "c1"⟩, ⟨1, true⟩) = 1) ∧
    ((dispatch testSchema (dispatch testSchema dtmfState dtmfEvent1).2
        dtmfEvent2).1.count (Origin.client, ⟨0, true⟩) = 0 ∧
      (dispatch testSchema (dispatch testSchema dtmfState dtmfEvent1).2
        dtmfEvent2).1.count
          (Origin.inst ⟨Kind.channel, "c1"⟩, ⟨1, true⟩) = 0) ∧
    (dispatch testSchema dtmfState dtmfEvent1).2.clientListeners.count
        ("ChannelDtmfReceived", ⟨0, true⟩) = 0 ∧
    (dispatch testSchema dtmfState dtmfEvent1).2.instListeners.count
        (⟨Kind.channel, "c1"⟩, "ChannelDtmfReceived", ⟨1, true⟩) = 0 :=
  ⟨⟨by decide, by decide⟩,
    once_listener_fires_exactly_once testSchema dtmfState dtmfEvent1
      dtmfEvent2 "ChannelDtmfReceived" ⟨Kind.channel, "c1"⟩ ⟨0, true⟩
      ⟨1, true⟩ rfl rfl (by decide) (by decide) rfl rfl (by decide)
      (by decide)⟩



/-! ## WebSocket session

The session (reconnect, backoff, lifecycle events) lives in
`lib/client.js`, which is not part of the source tree examined here; the
state machine below is modelled from the specification, section 4.5. -/

/-- Modelled from the spec: session configuration — the threshold on a
streak of consecutive failed reconnect attempts. -/
structure WSConfig where
  maxRetries : Nat

/-- Modelled from the spec: the session states of section 4.5; the
counter of consecutive failed attempts lives in `connecting` and a
successful open resets it. -/
inductive WSState where
  | idle : WSState
  | connecting : Nat → WSState
  | opened : WSState
  | gaveUp : WSState
  | stopped : WSState
deriving DecidableEq, Repr

/-- Inputs to the session: the client calls (`start`, `stop`), transport
outcomes (open succeeded / failed, unexpected close) and incoming text
frames. -/
inductive WSInput where
  | startIn : WSInput
  | openOk : WSInput
  | openFail : WSInput
  | closeUnexpected : WSInput
  | frame : String → WSInput
  | stopIn : WSInput
deriving DecidableEq, Repr

/-- Client-observable outputs: lifecycle events and frames routed to the
Event Router. -/
inductive WSOutput where
  | connected : WSOutput
  | reconnecting : WSOutput
  | maxRetries : WSOutput
  | routed : String → WSOutput
deriving DecidableEq, Repr

/-- Modelled from the spec: one transition of the session (section 4.5):
a successful open emits `WebSocketConnected` and resets the failure
counter; an unexpected close emits `WebSocketReconnecting` and starts a
reconnect attempt; a failed attempt either retries or — when the streak
exceeds the threshold — emits `WebSocketMaxRetries` and stops trying;
`stop` moves to `stopped`, where close events do not trigger reconnects
and frames are not routed; `gaveUp` and `stopped` are left only by
`start`. -/
def step (cfg : WSConfig) : WSState → WSInput → WSState × List WSOutput
  | .idle, .startIn => (.connecting 0, [])
  | .idle, .stopIn => (.stopped, [])
  | .idle, _ => (.idle, [])
  | .connecting _, .openOk => (.opened, [.connected])
  | .connecting f, .openFail =>
    if cfg.maxRetries < f + 1 then (.gaveUp, [.maxRetries])
    else (.connecting (f + 1), [.reconnecting])
  | .connecting _, .stopIn => (.stopped, [])
  | .connecting f, _ => (.connecting f, [])
  | .opened, .closeUnexpected => (.connecting 0, [.reconnecting])
  | .opened, .frame p => (.opened, [.routed p])
  | .opened, .stopIn => (.stopped, [])
  | .opened, _ => (.opened, [])
  | .gaveUp, _ => (.gaveUp, [])
  | .stopped, .startIn => (.connecting 0, [])
  | .stopped, _ => (.stopped, [])

/-- Run the session over a list of inputs, collecting outputs. -/
def run (cfg : WSConfig) : WSState → List WSInput → WSState × List WSOutput
  | s, [] => (s, [])
  | s, i :: rest =>
    let r1 := step cfg s i
    let r2 := run cfg r1.1 rest
    (r2.1, r1.2 ++ r2.2)

theorem run_cons (cfg : WSConfig) (s : WSState) (i : WSInput)
    (rest : List WSInput) :
    run cfg s (i :: rest) =
      ((run cfg (step cfg s i).1 rest).1,
        (step cfg s i).2 ++ (run cfg (step cfg s i).1 rest).2) := rfl

theorem run_append (cfg : WSConfig) (s : WSState) (l1 l2 : List WSInput) :
    run cfg s (l1 ++ l2) =
      ((run cfg (run cfg s l1).1 l2).1,
        (run cfg s l1).2 ++ (run cfg (run cfg s l1).1 l2).2) := by
  induction l1 generalizing s with
  | nil => simp [run]
  | cons i rest ih =>
    rw [List.cons_append, run_cons, ih, run_cons]
    dsimp only
    rw [List.append_assoc]

/-- A reconnect streak: one unexpected close, `k` failed reopen attempts,
then a successful reopen. -/
def reconnectBlock (k : Nat) : List WSInput :=
  .closeUnexpected :: (List.replicate k .openFail ++ [.openOk])

/-- A run in which every reconnect streak eventually succeeds, the `n`-th
one after `blocks[n]` failed attempts. -/
def successTrace : List Nat → List WSInput
  | [] => []
  | k :: rest => reconnectBlock k ++ successTrace rest

theorem fail_streak (cfg : WSConfig) (k f : Nat) (h : f + k ≤ cfg.maxRetries) :
    run cfg (.connecting f) (List.replicate k .openFail) =
      (.connecting (f + k), List.replicate k .reconnecting) := by
  induction k generalizing f with
  | zero => simp [run]
  | succ k ih =>
    have h1 : ¬cfg.maxRetries < f + 1 := by omega
    have h2 : f + 1 + k ≤ cfg.maxRetries := by omega
    simp only [List.replicate_succ, run, step, if_neg h1, ih (f + 1) h2]
    have h3 : f + 1 + k = f + (k + 1) := by omega
    rw [h3]
    rfl

theorem block_run (cfg : WSConfig) (k : Nat) (hk : k ≤ cfg.maxRetries) :
    run cfg .opened (reconnectBlock k) =
      (.opened,
        .reconnecting :: (List.replicate k .reconnecting ++ [.connected])) := by
  have hs : run cfg (.connecting 0)
      (List.replicate k .openFail ++ [.openOk]) =
      (.opened, List.replicate k .reconnecting ++ [.connected]) := by
    rw [run_append, fail_streak cfg k 0 (by omega)]
    simp [run, step]
  simp only [reconnectBlock, run, step, hs]
  rfl

theorem successTrace_run (cfg : WSConfig) (blocks : List Nat)
    (hk : ∀ k ∈ blocks, k ≤ cfg.maxRetries) :
    (run cfg .opened (successTrace blocks)).1 = .opened ∧
      (run cfg .opened (successTrace blocks)).2.count .connected =
        blocks.length ∧
      WSOutput.maxRetries ∉ (run cfg .opened (successTrace blocks)).2 := by
  induction blocks with
  | nil => simp [successTrace, run]
  | cons k rest ih =>
    have hk0 : k ≤ cfg.maxRetries := hk k (List.mem_cons_self k rest)
    have ihr := ih (fun q hq => hk q (List.mem_cons_of_mem k hq))
    simp only [successTrace]
    rw [run_append, block_run cfg k hk0]
    dsimp only
    refine ⟨ihr.1, ?_, ?_⟩
    · simp only [List.cons_append, List.count_cons, List.count_append,
        List.count_replicate, ihr.2.1, List.length_cons, List.count_nil]
      simp
      omega
    · intro hmem
      rcases List.mem_append.mp hmem with h1 | h2
      · rcases List.mem_cons.mp h1 with h3 | h4
        · exact WSOutput.noConfusion h3
        · rcases List.mem_append.mp h4 with h5 | h6
          · have := List.eq_of_mem_replicate h5
            exact WSOutput.noConfusion this
          · rcases List.mem_singleton.mp h6 with h7
            exact WSOutput.noConfusion h7
      · exact ihr.2.2 h2



/-! ### Claims about the WebSocket session -/

/-- C6: when every reconnect streak eventually succeeds (each streak has
at most the configured threshold of failed attempts before its successful
reopen), the session reconnects without bound — a run of any number of
such streaks ends `opened`, emits one `WebSocketConnected` per streak and
never emits `WebSocketMaxRetries`, because a successful reopen resets the
failure counter; and a single step emits `WebSocketMaxRetries` exactly
when a failed attempt makes a streak of consecutive failures exceed the
threshold. -/
theorem reconnects_unbounded_when_streaks_succeed (cfg : WSConfig)
    (blocks : List Nat) (hk : ∀ k ∈ blocks, k ≤ cfg.maxRetries) :
    ((run cfg .opened (successTrace blocks)).1 = .opened ∧
      (run cfg .opened (successTrace blocks)).2.count .connected =
        blocks.length ∧
      WSOutput.maxRetries ∉ (run cfg .opened (successTrace blocks)).2) ∧
    ∀ (s : WSState) (i : WSInput),
      WSOutput.maxRetries ∈ (step cfg s i).2 ↔
        ∃ f, s = .connecting f ∧ i = .openFail ∧ cfg.maxRetries < f + 1 := by
  refine ⟨successTrace_run cfg blocks hk, ?_⟩
  intro s i
  cases s with
  | idle => cases i <;> simp [step]
  | connecting f =>
    cases i with
    | startIn => simp [step]
    | openOk => simp [step]
    | openFail =>
      simp only [step]
      by_cases hlt : cfg.maxRetries < f + 1
      · rw [if_pos hlt]
        simp [hlt]
      · rw [if_neg hlt]
        simp [hlt]
    | closeUnexpected => simp [step]
    | frame p => simp [step]
    | stopIn => simp [step]
  | opened => cases i <;> simp [step]
  | gaveUp => cases i <;> simp [step]
  | stopped => cases i <;> simp [step]

/-- C6, witness: with threshold 5, twenty consecutive streaks that each
succeed immediately never reach the give-up event. -/
theorem reconnects_unbounded_when_streaks_succeed_witness :
    (∀ k ∈ List.replicate 20 0, k ≤ (WSConfig.mk 5).maxRetries) ∧
    (((run ⟨5⟩ .opened (successTrace (List.replicate 20 0))).1 = .opened ∧
        (run ⟨5⟩ .opened
          (successTrace (List.replicate 20 0))).2.count .connected =
          (List.replicate 20 (0 : Nat)).length ∧
        WSOutput.maxRetries ∉
          (run ⟨5⟩ .opened (successTrace (List.replicate 20 0))).2) ∧
      ∀ (s : WSState) (i : WSInput),
        WSOutput.maxRetries ∈ (step ⟨5⟩ s i).2 ↔
          ∃ f, s = .connecting f ∧ i = .openFail ∧
            (WSConfig.mk 5).maxRetries < f + 1) :=
  ⟨by decide,
    reconnects_unbounded_when_streaks_succeed ⟨5⟩ (List.replicate 20 0)
      (by decide)⟩

/-- C7: once `stop()` has moved the session to the stopped state, a run
over any inputs that do not contain `start` produces no output at all —
no frame is routed to listeners and no close event triggers a reconnect —
and the state remains stopped; calling `start` again is what leaves the
stopped state. -/
theorem stop_disables_routing_and_reconnect (cfg : WSConfig)
    (tr : List WSInput) (hstart : ∀ i ∈ tr, i ≠ WSInput.startIn) :
    run cfg .stopped tr = (.stopped, []) ∧
    step cfg .stopped .startIn = (.connecting 0, []) := by
  have main : ∀ (l : List WSInput), (∀ i ∈ l, i ≠ WSInput.startIn) →
      run cfg .stopped l = (.stopped, []) := by
    intro l
    induction l with
    | nil => intro _; rfl
    | cons i rest ih =>
      intro h2
      have hi : i ≠ WSInput.startIn := h2 i (List.mem_cons_self i rest)
      have hstep : step cfg .stopped i = (.stopped, []) := by
        cases i with
        | startIn => exact absurd rfl hi
        | openOk => rfl
        | openFail => rfl
        | closeUnexpected => rfl
        | frame p => rfl
        | stopIn => rfl
      rw [run_cons, hstep]
      dsimp only
      rw [ih (fun q hq => h2 q (List.mem_cons_of_mem i hq))]
      rfl
  exact ⟨main tr hstart, rfl⟩

/-- C7, witness: after stop, an unexpected close, an incoming frame and a
failed open produce no outputs and leave the session stopped. -/
theorem stop_disables_routing_and_reconnect_witness :
    (∀ i ∈ [WSInput.closeUnexpected, WSInput.frame "PlaybackFinished",
        WSInput.openFail, WSInput.stopIn], i ≠ WSInput.startIn) ∧
    (run ⟨5⟩ .stopped
        [WSInput.closeUnexpected, WSInput.frame "PlaybackFinished",
          WSInput.openFail, WSInput.stopIn] = (.stopped, []) ∧
      step ⟨5⟩ .stopped .startIn = (.connecting 0, [])) :=
  ⟨by decide,
    stop_disables_routing_and_reconnect ⟨5⟩
      [WSInput.closeUnexpected, WSInput.frame "PlaybackFinished",
        WSInput.openFail, WSInput.stopIn] (by decide)⟩



/-! ## Connect and the error taxonomy

`connect` lives in `lib/client.js`, which is not part of the source tree
examined here; its error mapping is modelled from the specification,
sections 4.7 and 7. -/

/-- Modelled from the spec: the network-reachability failures of
section 7 — DNS not found, connection refused (and TLS failure). -/
inductive NetFailure where
  | dnsNotFound : NetFailure
  | connRefused : NetFailure
  | tlsFailure : NetFailure
deriving DecidableEq, Repr

/-- The error kinds connect can surface. -/
inductive AriError where
  | hostIsNotReachable : AriError
  | schemaInvalid : AriError
deriving DecidableEq, Repr

/-- A ready client: the loaded resource namespaces. -/
structure Client where
  resources : List String
deriving Repr

/-- What the network and the schema fetch did during a connect call. -/
inductive ConnectOutcome where
  | netFail : NetFailure → ConnectOutcome
  | badSchema : ConnectOutcome
  | success : List String → ConnectOutcome

/-- Modelled from the spec: `connect` (sections 4.7 and 7) — every
network-reachability failure surfaces as the single `HostIsNotReachable`
error and no client is produced; a malformed schema is `SchemaInvalid`;
otherwise a ready client is returned. -/
def connect : ConnectOutcome → Except AriError Client
  | .netFail _ => .error .hostIsNotReachable
  | .badSchema => .error .schemaInvalid
  | .success cat => .ok ⟨cat⟩

/-- C8: a connect whose target fails DNS resolution and a connect whose
target refuses the TCP connection both fail with the error kind
`HostIsNotReachable` — one condition covering every network-reachability
failure — and in neither case is a client produced (the result is an
error, not a client). -/
theorem connect_unreachable_on_network_failure :
    connect (.netFail .dnsNotFound) = .error .hostIsNotReachable ∧
    connect (.netFail .connRefused) = .error .hostIsNotReachable ∧
    ∀ f : NetFailure, connect (.netFail f) = .error .hostIsNotReachable :=
  ⟨rfl, rfl, fun f => by cases f <;> rfl⟩

/-! ## Instance creators and UUID-shaped identifiers

The creators live in `lib/resources.js`, which is not part of the source
tree examined here; the generator below is modelled from the
specification, section 4.4: a locally created instance without a supplied
id receives a fresh identifier matching
`[a-z0-9]{8}(-[a-z0-9]{4}){3}-[a-z0-9]{12}`. It is modelled as drawing 32
hexadecimal digits from a seed that advances on every creation. -/

/-- The hexadecimal digit of `n % 16`, by character arithmetic. -/
def hexChar (n : Nat) : Char :=
  if n % 16 < 10 then Char.ofNat (48 + n % 16)
  else Char.ofNat (97 + (n % 16 - 10))

/-- The value of a hexadecimal digit. -/
def hexVal (c : Char) : Nat :=
  if 97 ≤ c.toNat then c.toNat - 97 + 10 else c.toNat - 48

/-- `len` hexadecimal digits of `n`, least significant first. -/
def toHexLE : Nat → Nat → List Char
  | _, 0 => []
  | n, len + 1 => hexChar n :: toHexLE (n / 16) len

/-- Decode a least-significant-first digit list. -/
def fromHexLE : List Char → Nat
  | [] => 0
  | c :: cs => hexVal c + 16 * fromHexLE cs

/-- A character admitted by the identifier regex: `[a-z0-9]`. -/
def isShapeChar (c : Char) : Bool :=
  (decide ('a' ≤ c) && decide (c ≤ 'z')) ||
    (decide ('0' ≤ c) && decide (c ≤ '9'))

theorem hexChar_shape (n : Nat) : isShapeChar (hexChar n) = true := by
  have haux : ∀ m, m < 16 → isShapeChar
      (if m < 10 then Char.ofNat (48 + m)
       else Char.ofNat (97 + (m - 10))) = true := by decide
  exact haux (n % 16) (Nat.mod_lt n (by omega))

theorem hexVal_hexChar (n : Nat) : hexVal (hexChar n) = n % 16 := by
  have haux : ∀ m, m < 16 → hexVal
      (if m < 10 then Char.ofNat (48 + m)
       else Char.ofNat (97 + (m - 10))) = m := by decide
  exact haux (n % 16) (Nat.mod_lt n (by omega))

theorem toHexLE_length (n len : Nat) : (toHexLE n len).length = len := by
  induction len generalizing n with
  | zero => rfl
  | succ len ih => simp [toHexLE, ih]

theorem toHexLE_shape (n len : Nat) :
    ∀ c ∈ toHexLE n len, isShapeChar c = true := by
  induction len generalizing n with
  | zero => intro c hc; simp [toHexLE] at hc
  | succ len ih =>
    intro c hc
    rcases List.mem_cons.mp hc with h1 | h2
    · rw [h1]
      exact hexChar_shape n
    · exact ih (n / 16) c h2

theorem fromHexLE_toHexLE (n len : Nat) :
    fromHexLE (toHexLE n len) = n % 16 ^ len := by
  induction len generalizing n with
  | zero => simp [toHexLE, fromHexLE, Nat.mod_one]
  | succ len ih =>
    have key : n % 16 ^ (len + 1) = n % 16 + 16 * (n / 16 % 16 ^ len) := by
      rw [pow_succ, mul_comm (16 ^ len) 16]
      exact Nat.mod_mul
    rw [toHexLE, fromHexLE, hexVal_hexChar, ih, key]

/-- Format 32 digits as the dash-separated identifier shape
8-4-4-4-12. -/
def uuidFrom (ds : List Char) : String :=
  ⟨ds.take 8 ++ '-' :: ((ds.drop 8).take 4 ++ '-' ::
    ((ds.drop 12).take 4 ++ '-' ::
      ((ds.drop 16).take 4 ++ '-' :: ds.drop 20)))⟩

/-- Modelled from the spec: the fresh identifier generated for a local
instance, as a function of the generator seed. -/
def genUuid (seed : Nat) : String := uuidFrom (toHexLE seed 32)

/-- The characters of an identifier with the dashes removed. -/
def stripDashes (s : String) : List Char :=
  s.data.filter (fun c => c != '-')

theorem shape_ne_dash (c : Char) (h : isShapeChar c = true) :
    (c != '-') = true := by
  unfold isShapeChar at h
  simp only [Bool.or_eq_true, Bool.and_eq_true, decide_eq_true_eq] at h
  simp only [bne_iff_ne, ne_eq]
  intro hEq
  subst hEq
  rcases h with ⟨h1, -⟩ | ⟨h1, -⟩
  · exact absurd h1 (by decide)
  · exact absurd h1 (by decide)

theorem stripDashes_uuidFrom (ds : List Char)
    (h : ∀ c ∈ ds, isShapeChar c = true) :
    stripDashes (uuidFrom ds) = ds := by
  have hsub : ∀ (l : List Char), (∀ c ∈ l, c ∈ ds) →
      l.filter (fun c => c != '-') = l := by
    intro l hl
    exact List.filter_eq_self.mpr (fun c hc => shape_ne_dash c (h c (hl c hc)))
  unfold stripDashes uuidFrom
  simp only [List.filter_append, List.filter_cons]
  norm_num
  rw [hsub _ (fun c hc => List.mem_of_mem_take hc),
    hsub _ (fun c hc => List.mem_of_mem_drop (List.mem_of_mem_take hc)),
    hsub _ (fun c hc => List.mem_of_mem_drop (List.mem_of_mem_take hc)),
    hsub _ (fun c hc => List.mem_of_mem_drop (List.mem_of_mem_take hc)),
    hsub _ (fun c hc => List.mem_of_mem_drop hc)]
  have e20 : ds.drop 20 = (ds.drop 16).drop 4 := by
    rw [List.drop_drop]
  have e16 : ds.drop 16 = (ds.drop 12).drop 4 := by
    rw [List.drop_drop]
  have e12 : ds.drop 12 = (ds.drop 8).drop 4 := by
    rw [List.drop_drop]
  calc ds.take 8 ++ ((ds.drop 8).take 4 ++ ((ds.drop 12).take 4 ++
        ((ds.drop 16).take 4 ++ ds.drop 20)))
      = ds.take 8 ++ ((ds.drop 8).take 4 ++ ((ds.drop 12).take 4 ++
        (ds.drop 16))) := by
        rw [e20, List.take_append_drop]
    _ = ds.take 8 ++ ((ds.drop 8).take 4 ++ (ds.drop 12)) := by
        rw [e16, List.take_append_drop]
    _ = ds.take 8 ++ (ds.drop 8) := by
        rw [e12, List.take_append_drop]
    _ = ds := List.take_append_drop 8 ds

/-- Consume `n` regex-shape characters. -/
def checkGroup : Nat → List Char → Option (List Char)
  | 0, rest => some rest
  | _ + 1, [] => none
  | n + 1, c :: rest => if isShapeChar c then checkGroup n rest else none

/-- Consume a leading dash. -/
def expectDash : Option (List Char) → Option (List Char)
  | some ('-' :: rest) => some rest
  | _ => none

/-- Full anchored match of `[a-z0-9]{8}(-[a-z0-9]{4}){3}-[a-z0-9]{12}`. -/
def matchesUuidRegex (s : String) : Bool :=
  ((expectDash (checkGroup 8 s.data)).bind (fun r1 =>
    (expectDash (checkGroup 4 r1)).bind (fun r2 =>
      (expectDash (checkGroup 4 r2)).bind (fun r3 =>
        (expectDash (checkGroup 4 r3)).bind (fun r4 =>
          checkGroup 12 r4))))) == some []

theorem checkGroup_append (g rest : List Char) (n : Nat)
    (hlen : g.length = n) (hshape : ∀ c ∈ g, isShapeChar c = true) :
    checkGroup n (g ++ rest) = some rest := by
  induction g generalizing n with
  | nil =>
    rw [← hlen]
    rfl
  | cons c t ih =>
    rw [← hlen]
    simp only [List.cons_append, List.length_cons, checkGroup]
    rw [if_pos (hshape c (List.mem_cons_self c t))]
    exact ih t.length rfl (fun q hq => hshape q (List.mem_cons_of_mem c hq))



theorem matchesUuidRegex_genUuid (seed : Nat) :
    matchesUuidRegex (genUuid seed) = true := by
  have hlen : (toHexLE seed 32).length = 32 := toHexLE_length seed 32
  have hshape := toHexLE_shape seed 32
  have h8 : ((toHexLE seed 32).take 8).length = 8 := by
    simp [List.length_take, hlen]
  have h4a : (((toHexLE seed 32).drop 8).take 4).length = 4 := by
    simp [List.length_take, List.length_drop, hlen]
  have h4b : (((toHexLE seed 32).drop 12).take 4).length = 4 := by
    simp [List.length_take, List.length_drop, hlen]
  have h4c : (((toHexLE seed 32).drop 16).take 4).length = 4 := by
    simp [List.length_take, List.length_drop, hlen]
  have h12 : ((toHexLE seed 32).drop 20).length = 12 := by
    simp [List.length_drop, hlen]
  have hs8 : ∀ c ∈ (toHexLE seed 32).take 8, isShapeChar c = true :=
    fun c hc => hshape c (List.mem_of_mem_take hc)
  have hs4a : ∀ c ∈ ((toHexLE seed 32).drop 8).take 4, isShapeChar c = true :=
    fun c hc => hshape c (List.mem_of_mem_drop (List.mem_of_mem_take hc))
  have hs4b : ∀ c ∈ ((toHexLE seed 32).drop 12).take 4, isShapeChar c = true :=
    fun c hc => hshape c (List.mem_of_mem_drop (List.mem_of_mem_take hc))
  have hs4c : ∀ c ∈ ((toHexLE seed 32).drop 16).take 4, isShapeChar c = true :=
    fun c hc => hshape c (List.mem_of_mem_drop (List.mem_of_mem_take hc))
  have hs12 : ∀ c ∈ (toHexLE seed 32).drop 20, isShapeChar c = true :=
    fun c hc => hshape c (List.mem_of_mem_drop hc)
  have e8 : ∀ rest, checkGroup 8 ((toHexLE seed 32).take 8 ++ rest) =
      some rest := fun rest => checkGroup_append _ rest 8 h8 hs8
  have e4a : ∀ rest, checkGroup 4 (((toHexLE seed 32).drop 8).take 4 ++ rest) =
      some rest := fun rest => checkGroup_append _ rest 4 h4a hs4a
  have e4b : ∀ rest, checkGroup 4 (((toHexLE seed 32).drop 12).take 4 ++ rest) =
      some rest := fun rest => checkGroup_append _ rest 4 h4b hs4b
  have e4c : ∀ rest, checkGroup 4 (((toHexLE seed 32).drop 16).take 4 ++ rest) =
      some rest := fun rest => checkGroup_append _ rest 4 h4c hs4c
  have e12 : checkGroup 12 ((toHexLE seed 32).drop 20) = some [] := by
    rw [← List.append_nil ((toHexLE seed 32).drop 20)]
    exact checkGroup_append _ [] 12 (by simpa using h12) hs12
  unfold genUuid uuidFrom matchesUuidRegex
  dsimp only
  simp [e8, e4a, e4b, e4c, e12, expectDash]

theorem genUuid_eq_mod (a b : Nat) (h : genUuid a = genUuid b) :
    a % 16 ^ 32 = b % 16 ^ 32 := by
  have hd : stripDashes (genUuid a) = stripDashes (genUuid b) := by rw [h]
  rw [genUuid, genUuid, stripDashes_uuidFrom _ (toHexLE_shape a 32),
    stripDashes_uuidFrom _ (toHexLE_shape b 32)] at hd
  have := congrArg fromHexLE hd
  rwa [fromHexLE_toHexLE, fromHexLE_toHexLE] at this

theorem genUuid_succ_ne (c : Nat) : genUuid c ≠ genUuid (c + 1) := by
  intro h
  have hm := genUuid_eq_mod c (c + 1) h
  have hM : 1 < 16 ^ 32 := by norm_num
  have h1 : (c + 1) % 16 ^ 32 = (c % 16 ^ 32 + 1) % 16 ^ 32 := by
    conv_lhs => rw [Nat.add_mod]
    rw [Nat.mod_eq_of_lt hM]
  have h2 : c % 16 ^ 32 < 16 ^ 32 := Nat.mod_lt c (by omega)
  by_cases hlt : c % 16 ^ 32 + 1 < 16 ^ 32
  · rw [Nat.mod_eq_of_lt hlt] at h1
    omega
  · have heq : c % 16 ^ 32 + 1 = 16 ^ 32 := by omega
    rw [heq, Nat.mod_self] at h1
    omega

/-- Modelled from the spec: the creator seed state — a fresh identifier
is drawn and the seed advances on every creation without a caller id. -/
structure CreatorState where
  counter : Nat
deriving DecidableEq, Repr

/-- Modelled from the spec: an Instance Creator (section 4.4): a caller
supplied id is used as-is; otherwise a fresh UUID-shaped identifier is
generated. -/
def createInstance (k : Kind) (suppliedId : Option String)
    (st : CreatorState) : (Kind × String) × CreatorState :=
  match suppliedId with
  | some i => ((k, i), st)
  | none => ((k, genUuid st.counter), ⟨st.counter + 1⟩)

/-- C9: for every KnownKind, an instance created locally without a
caller-supplied identifier receives an identifier that fully matches
`[a-z0-9]{8}(-[a-z0-9]{4}){3}-[a-z0-9]{12}`, and two successive local
creations receive distinct identifiers. -/
theorem local_instances_have_fresh_uuid_ids (k : Kind) (st : CreatorState) :
    matchesUuidRegex ((createInstance k none st).1.2) = true ∧
    matchesUuidRegex
      ((createInstance k none (createInstance k none st).2).1.2) = true ∧
    (createInstance k none st).1.2 ≠
      (createInstance k none (createInstance k none st).2).1.2 :=
  ⟨matchesUuidRegex_genUuid st.counter,
    matchesUuidRegex_genUuid (st.counter + 1),
    genUuid_succ_ne st.counter⟩

end AriClient
